import Mathlib

/-!
Verification development for the steam-scraper pipeline core.

The definitions below are shallow embeddings of the Python source:
`src/utils/checkpoint.py` (the `Checkpoint` class), `src/utils/http_client.py`
(`TokenBucketRateLimiter` and `AsyncHttpClient.get`), `src/utils/failure_manager.py`
(`FailureManager.log_failure`), `src/scrapers/review_scraper.py`
(the dedup preprocessing of `scrape_from_list`), and
`src/scrapers/game_scraper.py` (`get_game_details` and the committer role of `run`).
Python sets become `Finset Int`, JSON documents become explicit inductive values,
time-dependent waits are dropped (they do not affect the state claims), and the
sequence of HTTP outcomes a request would observe is passed in as a script.
-/

namespace SteamScraper

/-- TaskType mirrors the `TaskType = Literal["game", "review"]` alias of
`checkpoint.py`: the two independent checkpoint namespaces. -/
inductive TaskType where
  | game
  | review
deriving DecidableEq, Repr

/-- JsonVal models the JSON values that can appear in a checkpoint file:
integer lists (the expected shape of the five set-valued keys), bare numbers,
and null.  `set(v)` in Python succeeds on a list and raises `TypeError` on a
number or `None`. -/
inductive JsonVal where
  | jlist (xs : List Int)
  | jnum (n : Int)
  | jnull
deriving DecidableEq, Repr

/-- CheckpointState embeds the `self.state` dict of `Checkpoint`: the five
known set-valued keys (stored as Python sets in memory), plus `extras` for the
unrecognized keys that `_load` preserves verbatim. -/
structure CheckpointState where
  completed_pages : Finset Int
  completed_appids : Finset Int
  failed_appids : Finset Int
  completed_review_appids : Finset Int
  failed_review_appids : Finset Int
  extras : List (String × JsonVal)
deriving DecidableEq

/-- defaultState embeds `Checkpoint._get_default_state`: all five sets empty
(and no extra keys). -/
def defaultState : CheckpointState :=
  { completed_pages := ∅
    completed_appids := ∅
    failed_appids := ∅
    completed_review_appids := ∅
    failed_review_appids := ∅
    extras := [] }

/-- completedOf reads the completed set selected by `Checkpoint._get_keys`. -/
def completedOf : TaskType → CheckpointState → Finset Int
  | .game, s => s.completed_appids
  | .review, s => s.completed_review_appids

/-- failedOf reads the failed set selected by `Checkpoint._get_keys`. -/
def failedOf : TaskType → CheckpointState → Finset Int
  | .game, s => s.failed_appids
  | .review, s => s.failed_review_appids

/-- setCompleted writes the completed set selected by `Checkpoint._get_keys`. -/
def setCompleted : TaskType → Finset Int → CheckpointState → CheckpointState
  | .game, c, s => { s with completed_appids := c }
  | .review, c, s => { s with completed_review_appids := c }

/-- setFailed writes the failed set selected by `Checkpoint._get_keys`. -/
def setFailed : TaskType → Finset Int → CheckpointState → CheckpointState
  | .game, f, s => { s with failed_appids := f }
  | .review, f, s => { s with failed_review_appids := f }

/-- markAppidCompleted embeds the in-memory effect of
`Checkpoint.mark_appid_completed`: if the id is not yet completed, add it to
the completed set and discard it from the failed set; otherwise do nothing. -/
def markAppidCompleted (i : Int) (t : TaskType) (s : CheckpointState) : CheckpointState :=
  if i ∈ completedOf t s then s
  else setFailed t ((failedOf t s).erase i) (setCompleted t (insert i (completedOf t s)) s)

/-- markAppidFailed embeds the in-memory effect of
`Checkpoint.mark_appid_failed`: return unchanged if the id is completed;
otherwise add it to the failed set if not already there. -/
def markAppidFailed (i : Int) (t : TaskType) (s : CheckpointState) : CheckpointState :=
  if i ∈ completedOf t s then s
  else if i ∈ failedOf t s then s
  else setFailed t (insert i (failedOf t s)) s

/-- batchGo embeds the loop body of `Checkpoint.mark_appids_completed`: for
each id, insert into completed when absent (setting `changed`), and discard
from failed when present (setting `changed`).  Returns the final state and the
`changed` flag. -/
def batchGo (t : TaskType) : List Int → CheckpointState → Bool → CheckpointState × Bool
  | [], s, ch => (s, ch)
  | i :: rest, s, ch =>
    let p : CheckpointState × Bool :=
      if i ∈ completedOf t s then (s, ch)
      else (setCompleted t (insert i (completedOf t s)) s, true)
    let q : CheckpointState × Bool :=
      if i ∈ failedOf t p.1 then (setFailed t ((failedOf t p.1).erase i) p.1, true)
      else p
    batchGo t rest q.1 q.2

/-- markAppidsCompleted embeds the in-memory effect of
`Checkpoint.mark_appids_completed`. -/
def markAppidsCompleted (ids : List Int) (t : TaskType) (s : CheckpointState) : CheckpointState :=
  (batchGo t ids s false).1

/-- markAppidsCompletedWrites counts the `_save_to_disk` calls performed by
`Checkpoint.mark_appids_completed`: one if the `changed` flag ended up true,
zero otherwise (the batch path never consults the save-interval gate). -/
def markAppidsCompletedWrites (ids : List Int) (t : TaskType) (s : CheckpointState) : Nat :=
  if (batchGo t ids s false).2 then 1 else 0

/-- markAppidCompletedWrites counts the disk writes of a single
`mark_appid_completed` call: `_request_save` writes only when the state
changed and at least `save_interval` seconds elapsed since the last write
(`gateOpen`). -/
def markAppidCompletedWrites (i : Int) (t : TaskType) (s : CheckpointState)
    (gateOpen : Bool) : Nat :=
  if i ∈ completedOf t s then 0 else if gateOpen then 1 else 0

/-- MutexInv states the mutual-exclusion invariant of the checkpoint: no id is
in both the completed set and the failed set of the same namespace. -/
def MutexInv (s : CheckpointState) : Prop :=
  ∀ t i, ¬(i ∈ completedOf t s ∧ i ∈ failedOf t s)

/-- Reachable describes the checkpoint states reachable from the default
state by any sequence of `mark_appid_completed`, `mark_appids_completed`, and
`mark_appid_failed` calls, in either namespace. -/
inductive Reachable : CheckpointState → Prop where
  | init : Reachable defaultState
  | stepCompleted (s : CheckpointState) (i : Int) (t : TaskType) :
      Reachable s → Reachable (markAppidCompleted i t s)
  | stepBatch (s : CheckpointState) (ids : List Int) (t : TaskType) :
      Reachable s → Reachable (markAppidsCompleted ids t s)
  | stepFailed (s : CheckpointState) (i : Int) (t : TaskType) :
      Reachable s → Reachable (markAppidFailed i t s)

lemma completedOf_setFailed (t t' : TaskType) (f : Finset Int) (s : CheckpointState) :
    completedOf t' (setFailed t f s) = completedOf t' s := by
  cases t <;> cases t' <;> rfl

lemma failedOf_setCompleted (t t' : TaskType) (c : Finset Int) (s : CheckpointState) :
    failedOf t' (setCompleted t c s) = failedOf t' s := by
  cases t <;> cases t' <;> rfl

lemma completedOf_setCompleted_same (t : TaskType) (c : Finset Int) (s : CheckpointState) :
    completedOf t (setCompleted t c s) = c := by
  cases t <;> rfl

lemma failedOf_setFailed_same (t : TaskType) (f : Finset Int) (s : CheckpointState) :
    failedOf t (setFailed t f s) = f := by
  cases t <;> rfl

lemma completedOf_setCompleted_other (t t' : TaskType) (c : Finset Int)
    (s : CheckpointState) (h : t' ≠ t) :
    completedOf t' (setCompleted t c s) = completedOf t' s := by
  cases t <;> cases t' <;> first | rfl | exact absurd rfl h

lemma failedOf_setFailed_other (t t' : TaskType) (f : Finset Int)
    (s : CheckpointState) (h : t' ≠ t) :
    failedOf t' (setFailed t f s) = failedOf t' s := by
  cases t <;> cases t' <;> first | rfl | exact absurd rfl h

lemma setCompleted_self (t : TaskType) (s : CheckpointState) :
    setCompleted t (completedOf t s) s = s := by
  cases t <;> rfl

lemma setFailed_self (t : TaskType) (s : CheckpointState) :
    setFailed t (failedOf t s) s = s := by
  cases t <;> rfl

/-- elemState is the closed form of one iteration of the
`mark_appids_completed` loop on id `i`: insert `i` into the completed set and
erase it from the failed set of namespace `t`. -/
def elemState (i : Int) (t : TaskType) (s : CheckpointState) : CheckpointState :=
  setFailed t ((failedOf t s).erase i) (setCompleted t (insert i (completedOf t s)) s)

lemma elemState_preserves_inv (i : Int) (t : TaskType) (s : CheckpointState)
    (h : MutexInv s) : MutexInv (elemState i t s) := by
  intro t' j hj
  rcases hj with ⟨hc, hf⟩
  by_cases ht : t' = t
  · subst ht
    rw [elemState, completedOf_setFailed, completedOf_setCompleted_same] at hc
    rw [elemState, failedOf_setFailed_same] at hf
    rcases Finset.mem_insert.mp hc with hji | hjc
    · exact (Finset.ne_of_mem_erase hf) hji
    · exact h t' j ⟨hjc, Finset.mem_of_mem_erase hf⟩
  · rw [elemState, completedOf_setFailed, completedOf_setCompleted_other _ _ _ _ ht] at hc
    rw [elemState, failedOf_setFailed_other _ _ _ _ ht, failedOf_setCompleted] at hf
    exact h t' j ⟨hc, hf⟩

lemma markAppidCompleted_preserves_inv (i : Int) (t : TaskType) (s : CheckpointState)
    (h : MutexInv s) : MutexInv (markAppidCompleted i t s) := by
  unfold markAppidCompleted
  split
  · exact h
  · exact elemState_preserves_inv i t s h

lemma markAppidFailed_preserves_inv (i : Int) (t : TaskType) (s : CheckpointState)
    (h : MutexInv s) : MutexInv (markAppidFailed i t s) := by
  unfold markAppidFailed
  split
  · exact h
  · rename_i hic
    split
    · exact h
    · intro t' j hj
      rcases hj with ⟨hc, hf⟩
      by_cases ht : t' = t
      · subst ht
        rw [completedOf_setFailed] at hc
        rw [failedOf_setFailed_same] at hf
        rcases Finset.mem_insert.mp hf with hji | hjf
        · exact hic (hji ▸ hc)
        · exact h t' j ⟨hc, hjf⟩
      · rw [completedOf_setFailed] at hc
        rw [failedOf_setFailed_other _ _ _ _ ht] at hf
        exact h t' j ⟨hc, hf⟩

lemma batchGo_cons (t : TaskType) (i : Int) (rest : List Int) (s : CheckpointState)
    (ch : Bool) :
    batchGo t (i :: rest) s ch =
      batchGo t rest (elemState i t s)
        (if i ∈ completedOf t s then (if i ∈ failedOf t s then true else ch) else true) := by
  by_cases hic : i ∈ completedOf t s
  · by_cases hif : i ∈ failedOf t s
    · simp only [batchGo, if_pos hic, if_pos hif]
      rw [elemState, Finset.insert_eq_self.mpr hic, setCompleted_self]
    · simp only [batchGo, if_pos hic, if_neg hif]
      rw [elemState, Finset.insert_eq_self.mpr hic, setCompleted_self,
        Finset.erase_eq_of_not_mem hif, setFailed_self]
  · have hfc : failedOf t (setCompleted t (insert i (completedOf t s)) s) = failedOf t s :=
      failedOf_setCompleted t t _ s
    by_cases hif : i ∈ failedOf t s
    · simp only [batchGo, if_neg hic, hfc, if_pos hif]
      rw [elemState]
    · simp only [batchGo, if_neg hic, hfc, if_neg hif]
      rw [elemState, Finset.erase_eq_of_not_mem hif, ← hfc, setFailed_self]

lemma batchGo_preserves_inv (t : TaskType) (ids : List Int) (s : CheckpointState)
    (ch : Bool) (h : MutexInv s) : MutexInv (batchGo t ids s ch).1 := by
  induction ids generalizing s ch with
  | nil => exact h
  | cons i rest ih =>
    rw [batchGo_cons]
    exact ih _ _ (elemState_preserves_inv i t s h)

lemma reachable_inv (s : CheckpointState) (h : Reachable s) : MutexInv s := by
  induction h with
  | init =>
    intro t i hi
    cases t <;> simp [completedOf, defaultState] at hi
  | stepCompleted s i t _ ih => exact markAppidCompleted_preserves_inv i t s ih
  | stepBatch s ids t _ ih => exact batchGo_preserves_inv t ids s false ih
  | stepFailed s i t _ ih => exact markAppidFailed_preserves_inv i t s ih

/-- C1: for every checkpoint state reachable by any sequence of
mark_appid_completed, mark_appids_completed and mark_appid_failed calls in
either namespace, no id is simultaneously in the completed and failed sets of
one namespace; marking an id completed always leaves it outside that
namespace's failed set; and marking an id failed is a no-op when the id is
already completed. -/
theorem checkpoint_mutual_exclusion (s : CheckpointState) (h : Reachable s) :
    (∀ t i, ¬(i ∈ completedOf t s ∧ i ∈ failedOf t s)) ∧
    (∀ t i, i ∉ failedOf t (markAppidCompleted i t s)) ∧
    (∀ t i, i ∈ completedOf t s → markAppidFailed i t s = s) := by
  have hinv := reachable_inv s h
  refine ⟨hinv, ?_, ?_⟩
  · intro t i hf
    unfold markAppidCompleted at hf
    by_cases hic : i ∈ completedOf t s
    · rw [if_pos hic] at hf
      exact hinv t i ⟨hic, hf⟩
    · rw [if_neg hic, failedOf_setFailed_same] at hf
      exact Finset.not_mem_erase i _ hf
  · intro t i hic
    unfold markAppidFailed
    rw [if_pos hic]

/-- Witness for C1: after completing id 5 in the game namespace the state is
reachable, and marking id 5 failed there is a no-op. -/
theorem checkpoint_mutual_exclusion_witness :
    markAppidFailed 5 .game (markAppidCompleted 5 .game defaultState) =
      markAppidCompleted 5 .game defaultState :=
  (checkpoint_mutual_exclusion (markAppidCompleted 5 .game defaultState)
    (Reachable.stepCompleted defaultState 5 .game Reachable.init)).2.2 .game 5 (by decide)

/-! Batch marking versus repeated single marking (`mark_appids_completed`). -/

lemma completedOf_elemState (i : Int) (t : TaskType) (s : CheckpointState) :
    completedOf t (elemState i t s) = insert i (completedOf t s) := by
  rw [elemState, completedOf_setFailed, completedOf_setCompleted_same]

lemma failedOf_elemState (i : Int) (t : TaskType) (s : CheckpointState) :
    failedOf t (elemState i t s) = (failedOf t s).erase i := by
  rw [elemState, failedOf_setFailed_same]

lemma elemState_eq_mark (i : Int) (t : TaskType) (s : CheckpointState)
    (h : MutexInv s) : elemState i t s = markAppidCompleted i t s := by
  unfold markAppidCompleted
  by_cases hic : i ∈ completedOf t s
  · rw [if_pos hic, elemState, Finset.insert_eq_self.mpr hic, setCompleted_self,
      Finset.erase_eq_of_not_mem (fun hif => h t i ⟨hic, hif⟩), setFailed_self]
  · rw [if_neg hic, elemState]

lemma batchGo_state_eq_fold (t : TaskType) (ids : List Int) (s : CheckpointState)
    (ch : Bool) (h : MutexInv s) :
    (batchGo t ids s ch).1 = List.foldl (fun st i => markAppidCompleted i t st) s ids := by
  induction ids generalizing s ch with
  | nil => rfl
  | cons i rest ih =>
    rw [batchGo_cons, List.foldl_cons, ih _ _ (elemState_preserves_inv i t s h),
      elemState_eq_mark i t s h]

lemma batchGo_completed_mono (t : TaskType) (ids : List Int) (s : CheckpointState)
    (ch : Bool) : completedOf t s ⊆ completedOf t (batchGo t ids s ch).1 := by
  induction ids generalizing s ch with
  | nil => exact fun _ hx => hx
  | cons i rest ih =>
    rw [batchGo_cons]
    intro x hx
    exact ih _ _ (by rw [completedOf_elemState]; exact Finset.mem_insert_of_mem hx)

lemma batchGo_failed_mono (t : TaskType) (ids : List Int) (s : CheckpointState)
    (ch : Bool) : failedOf t (batchGo t ids s ch).1 ⊆ failedOf t s := by
  induction ids generalizing s ch with
  | nil => exact fun _ hx => hx
  | cons i rest ih =>
    rw [batchGo_cons]
    intro x hx
    have := ih (elemState i t s) _ hx
    rw [failedOf_elemState] at this
    exact Finset.mem_of_mem_erase this

lemma batchGo_ch_sticky (t : TaskType) (ids : List Int) (s : CheckpointState) :
    (batchGo t ids s true).2 = true := by
  induction ids generalizing s with
  | nil => rfl
  | cons i rest ih =>
    rw [batchGo_cons]
    have hflag :
        (if i ∈ completedOf t s then (if i ∈ failedOf t s then true else true) else true) =
          true := by
      split <;> simp
    rw [hflag]
    exact ih _

lemma batchGo_unchanged_of_not_ch (t : TaskType) (ids : List Int) (s : CheckpointState)
    (h : (batchGo t ids s false).2 = false) : (batchGo t ids s false).1 = s := by
  induction ids generalizing s with
  | nil => rfl
  | cons i rest ih =>
    rw [batchGo_cons] at h ⊢
    by_cases hic : i ∈ completedOf t s
    · by_cases hif : i ∈ failedOf t s
      · rw [if_pos hic, if_pos hif] at h ⊢
        exact absurd h (by rw [batchGo_ch_sticky]; simp)
      · have hE : elemState i t s = s := by
          rw [elemState, Finset.insert_eq_self.mpr hic, setCompleted_self,
            Finset.erase_eq_of_not_mem hif, setFailed_self]
        rw [if_pos hic, if_neg hif, hE] at h ⊢
        exact ih s h
    · rw [if_neg hic] at h
      exact absurd h (by rw [batchGo_ch_sticky]; simp)

lemma batchGo_ne_of_ch (t : TaskType) (ids : List Int) (s : CheckpointState)
    (h : (batchGo t ids s false).2 = true) : (batchGo t ids s false).1 ≠ s := by
  induction ids generalizing s with
  | nil => simp [batchGo] at h
  | cons i rest ih =>
    rw [batchGo_cons] at h ⊢
    by_cases hic : i ∈ completedOf t s
    · by_cases hif : i ∈ failedOf t s
      · rw [if_pos hic, if_pos hif] at h ⊢
        intro heq
        have hmono := batchGo_failed_mono t rest (elemState i t s) true
        rw [failedOf_elemState, heq] at hmono
        exact Finset.not_mem_erase i _ (hmono hif)
      · have hE : elemState i t s = s := by
          rw [elemState, Finset.insert_eq_self.mpr hic, setCompleted_self,
            Finset.erase_eq_of_not_mem hif, setFailed_self]
        rw [if_pos hic, if_neg hif, hE] at h ⊢
        exact ih s h
    · rw [if_neg hic] at h ⊢
      intro heq
      have hmono := batchGo_completed_mono t rest (elemState i t s) true
      rw [completedOf_elemState, heq] at hmono
      exact hic (hmono (Finset.mem_insert_self i _))

/-- C4 (amended): for every starting checkpoint state whose completed and
failed sets are disjoint in each namespace (true of every state reachable
through the marking API), mark_appids_completed leaves the in-memory state
equal to calling mark_appid_completed for each id in order; it performs at
most one disk write, and it writes exactly when the batch actually changed
the state (zero writes for a no-op batch), never consulting the
save-interval gate. -/
theorem batch_mark_equiv (ids : List Int) (t : TaskType) (s : CheckpointState)
    (h : MutexInv s) :
    markAppidsCompleted ids t s =
      List.foldl (fun st i => markAppidCompleted i t st) s ids ∧
    markAppidsCompletedWrites ids t s ≤ 1 ∧
    (markAppidsCompletedWrites ids t s = 0 ↔ markAppidsCompleted ids t s = s) := by
  refine ⟨batchGo_state_eq_fold t ids s false h, ?_, ?_⟩
  · unfold markAppidsCompletedWrites
    split <;> simp
  · unfold markAppidsCompletedWrites markAppidsCompleted
    constructor
    · intro hw
      apply batchGo_unchanged_of_not_ch
      by_contra hch
      rw [if_pos (by simpa using hch)] at hw
      exact one_ne_zero hw
    · intro heq
      rw [if_neg ?_]
      intro hch
      exact batchGo_ne_of_ch t ids s hch heq

/-- Witness for C4 (amended): on the empty default state, batch-marking ids 2
and 3 in the game namespace equals the two single marks in order. -/
theorem batch_mark_equiv_witness :
    markAppidsCompleted [2, 3] .game defaultState =
      List.foldl (fun st i => markAppidCompleted i .game st) defaultState [2, 3] :=
  (batch_mark_equiv [2, 3] .game defaultState
    (by intro t i hi; cases t <;> simp [completedOf, defaultState] at hi)).1

/-- overlapState is a checkpoint state that violates the mutual-exclusion
invariant: id 1 sits in both the completed and the failed game sets.  A state
of this shape can arise from a hand-edited or corrupted checkpoint file, since
`Checkpoint._load` does not enforce disjointness. -/
def overlapState : CheckpointState :=
  { completed_pages := ∅
    completed_appids := {1}
    failed_appids := {1}
    completed_review_appids := ∅
    failed_review_appids := ∅
    extras := [] }

/-- C4 counterexample: the claim fails as stated.  On the overlap state,
mark_appids_completed([1]) evicts id 1 from the failed set while the
corresponding single mark_appid_completed(1) is a complete no-op, so the
in-memory states differ; moreover an empty batch performs zero persistence
writes, not exactly one. -/
theorem batch_mark_cex :
    markAppidsCompleted [1] .game overlapState ≠
      List.foldl (fun st i => markAppidCompleted i .game st) overlapState [1] ∧
    markAppidsCompletedWrites [] .game defaultState = 0 := by
  exact ⟨by decide, rfl⟩

/-! Atomic persistence model for `Checkpoint._save_to_disk`. -/

/-- SerializedState embeds the JSON document `_save_to_disk` writes: the five
sets converted to (sorted) lists, extras carried along. -/
structure SerializedState where
  completed_pages : List Int
  completed_appids : List Int
  failed_appids : List Int
  completed_review_appids : List Int
  failed_review_appids : List Int
  extras : List (String × JsonVal)
deriving DecidableEq

/-- serializeState converts the in-memory sets to lists, as the serialization
loop of `_save_to_disk` does before `json.dump`. -/
def serializeState (s : CheckpointState) : SerializedState :=
  { completed_pages := s.completed_pages.sort (· ≤ ·)
    completed_appids := s.completed_appids.sort (· ≤ ·)
    failed_appids := s.failed_appids.sort (· ≤ ·)
    completed_review_appids := s.completed_review_appids.sort (· ≤ ·)
    failed_review_appids := s.failed_review_appids.sort (· ≤ ·)
    extras := s.extras }

/-- DiskState models the two filesystem paths `_save_to_disk` touches: the
durable checkpoint file at `self.path` and the temporary file at the `.tmp`
suffix, each either absent or holding a serialized document. -/
structure DiskState where
  target : Option SerializedState
  tmp : Option SerializedState
deriving DecidableEq

/-- writeTmpFile models the `open(tmp_path, "w")` / `json.dump` step: the
temporary file now holds the serialized state; the target is untouched. -/
def writeTmpFile (s : CheckpointState) (d : DiskState) : DiskState :=
  { d with tmp := some (serializeState s) }

/-- renameOverTarget models `os.replace(tmp_path, self.path)`: the target path
now holds the temporary file contents and the temporary path is gone. -/
def renameOverTarget (d : DiskState) : DiskState :=
  { target := d.tmp, tmp := none }

/-- saveToDisk embeds the full `Checkpoint._save_to_disk`: write the temporary
file, then rename it over the target path. -/
def saveToDisk (s : CheckpointState) (d : DiskState) : DiskState :=
  renameOverTarget (writeTmpFile s d)

/-- saveInterruptedBeforeRename models a save crashing after the temporary
file was written but before the rename. -/
def saveInterruptedBeforeRename (s : CheckpointState) (d : DiskState) : DiskState :=
  writeTmpFile s d

/-- C2: a checkpoint save interrupted after the temporary-file write but
before the rename leaves the durable checkpoint file byte-identical to its
pre-write contents, while a completed save installs exactly the serialized
state at the target path. -/
theorem atomic_save_crash_safety (s : CheckpointState) (d : DiskState) :
    (saveInterruptedBeforeRename s d).target = d.target ∧
    (saveToDisk s d).target = some (serializeState s) := by
  exact ⟨rfl, rfl⟩

/-! Token-bucket rate limiter (`TokenBucketRateLimiter` in `http_client.py`).
The time-dependent token bookkeeping of `acquire` is not modeled; `throttle`
and `recover` touch only `rate` and `_base_rate`, embedded over ℚ. -/

/-- TokenBucketRateLimiter embeds the limiter fields set by `__init__`:
`rate`, `capacity`, `tokens` (initially `capacity`) and `_base_rate`
(initially `rate`). -/
structure TokenBucketRateLimiter where
  rate : ℚ
  capacity : ℚ
  tokens : ℚ
  baseRate : ℚ
deriving DecidableEq, Repr

/-- initLimiter embeds `TokenBucketRateLimiter.__init__`. -/
def initLimiter (rate capacity : ℚ) : TokenBucketRateLimiter :=
  { rate := rate, capacity := capacity, tokens := capacity, baseRate := rate }

/-- throttle embeds `TokenBucketRateLimiter.throttle`: multiply the rate by
`factor`, floored at 0.5 requests per second.  The code calls it with the
default factor 0.5. -/
def throttle (l : TokenBucketRateLimiter) (factor : ℚ) : TokenBucketRateLimiter :=
  { l with rate := max (1/2) (l.rate * factor) }

/-- recover embeds `TokenBucketRateLimiter.recover`: multiply the rate by
`factor`, capped at the original base rate.  The code calls it with the
default factor 1.2. -/
def recover (l : TokenBucketRateLimiter) (factor : ℚ) : TokenBucketRateLimiter :=
  { l with rate := min l.baseRate (l.rate * factor) }

/-- RLStep is one limiter adjustment call. -/
inductive RLStep where
  | thr (f : ℚ)
  | rcv (f : ℚ)

/-- applyStep runs one adjustment call on the limiter. -/
def applyStep (l : TokenBucketRateLimiter) : RLStep → TokenBucketRateLimiter
  | .thr f => throttle l f
  | .rcv f => recover l f

/-- ValidStep restricts adjustment calls to decreasing throttle factors and
increasing recover factors, as the code always uses (0.5 and 1.2). -/
def ValidStep : RLStep → Prop
  | .thr f => 0 < f ∧ f ≤ 1
  | .rcv f => 1 ≤ f

/-- applySteps folds a sequence of adjustment calls over the limiter. -/
def applySteps (steps : List RLStep) (l : TokenBucketRateLimiter) : TokenBucketRateLimiter :=
  steps.foldl applyStep l

lemma applyStep_baseRate (l : TokenBucketRateLimiter) (st : RLStep) :
    (applyStep l st).baseRate = l.baseRate := by
  cases st <;> rfl

lemma applyStep_interval (l : TokenBucketRateLimiter) (st : RLStep) (hv : ValidStep st)
    (hb : 1/2 ≤ l.baseRate) (h1 : 1/2 ≤ l.rate) (h2 : l.rate ≤ l.baseRate) :
    1/2 ≤ (applyStep l st).rate ∧ (applyStep l st).rate ≤ l.baseRate := by
  cases st with
  | thr f =>
    rcases hv with ⟨hf0, hf1⟩
    constructor
    · exact le_max_left _ _
    · apply max_le hb
      calc l.rate * f ≤ l.rate * 1 := by
            apply mul_le_mul_of_nonneg_left hf1
            linarith
        _ = l.rate := mul_one _
        _ ≤ l.baseRate := h2
  | rcv f =>
    constructor
    · apply le_min hb
      calc (1/2 : ℚ) ≤ l.rate := h1
        _ = l.rate * 1 := (mul_one _).symm
        _ ≤ l.rate * f := by
            apply mul_le_mul_of_nonneg_left hv
            linarith
    · exact min_le_left _ _

/-- C6 (amended): throttle(factor) sets the rate to max(0.5, rate·factor) and
recover(factor) sets it to min(base rate, rate·factor); with a factor in
(0, 1), throttle strictly decreases the rate whenever the rate exceeds the
0.5 floor (at the floor it is a no-op); with a factor above 1, recover
strictly increases the rate whenever the rate is positive and strictly below
the base rate (at the base rate it is a no-op) and never raises it above the
base rate; and under any sequence of such calls started with
0.5 ≤ rate ≤ base rate and base rate ≥ 0.5, the rate stays in
[0.5, base rate]. -/
theorem rate_limiter_adjustment_bounds :
    (∀ (l : TokenBucketRateLimiter) (f : ℚ),
      (throttle l f).rate = max (1/2) (l.rate * f)) ∧
    (∀ (l : TokenBucketRateLimiter) (g : ℚ),
      (recover l g).rate = min l.baseRate (l.rate * g)) ∧
    (∀ (l : TokenBucketRateLimiter) (f : ℚ), 0 < f → f < 1 →
      1/2 < l.rate → (throttle l f).rate < l.rate) ∧
    (∀ (l : TokenBucketRateLimiter) (g : ℚ), 1 < g →
      0 < l.rate → l.rate < l.baseRate → l.rate < (recover l g).rate) ∧
    (∀ (l : TokenBucketRateLimiter) (g : ℚ), (recover l g).rate ≤ l.baseRate) ∧
    (∀ (l : TokenBucketRateLimiter) (steps : List RLStep),
      (∀ st ∈ steps, ValidStep st) → 1/2 ≤ l.baseRate → 1/2 ≤ l.rate →
      l.rate ≤ l.baseRate →
      1/2 ≤ (applySteps steps l).rate ∧ (applySteps steps l).rate ≤ l.baseRate) := by
  refine ⟨fun _ _ => rfl, fun _ _ => rfl, ?_, ?_, ?_, ?_⟩
  · intro l f hf0 hf1 hr
    apply max_lt hr
    exact mul_lt_of_lt_one_right (by linarith) hf1
  · intro l g hg hr hrb
    apply lt_min hrb
    exact lt_mul_of_one_lt_right hr hg
  · intro l g
    exact min_le_left _ _
  · intro l steps
    induction steps generalizing l with
    | nil => exact fun _ _ h1 h2 => ⟨h1, h2⟩
    | cons st rest ih =>
      intro hv hb h1 h2
      have hstep := applyStep_interval l st (hv st (List.mem_cons_self st rest)) hb h1 h2
      have hbase := applyStep_baseRate l st
      have := ih (applyStep l st) (fun s hs => hv s (List.mem_cons_of_mem st hs))
        (hbase ▸ hb) hstep.1 (hbase ▸ hstep.2)
      exact ⟨this.1, by rw [← hbase]; exact this.2⟩

/-- Witness for C6 (amended): from rate 5 with base rate 5, a default
throttle call strictly lowers the rate, and a throttle followed by a recover
leaves the rate within [0.5, 5]. -/
theorem rate_limiter_adjustment_bounds_witness :
    (throttle (initLimiter 5 10) (1/2)).rate < (initLimiter 5 10).rate ∧
    1/2 ≤ (applySteps [RLStep.thr (1/2), RLStep.rcv (6/5)] (initLimiter 5 10)).rate ∧
    (applySteps [RLStep.thr (1/2), RLStep.rcv (6/5)] (initLimiter 5 10)).rate ≤
      (initLimiter 5 10).baseRate := by
  refine ⟨rate_limiter_adjustment_bounds.2.2.1 (initLimiter 5 10) (1/2)
    (by norm_num) (by norm_num) (by norm_num [initLimiter]), ?_⟩
  have h := rate_limiter_adjustment_bounds.2.2.2.2.2 (initLimiter 5 10)
    [RLStep.thr (1/2), RLStep.rcv (6/5)] ?_ ?_ ?_ ?_
  · exact h
  · intro st hst
    rcases List.mem_cons.mp hst with h1 | h1
    · rw [h1]; exact ⟨by norm_num, by norm_num⟩
    · rcases List.mem_cons.mp h1 with h2 | h2
      · rw [h2]; norm_num [ValidStep]
      · cases h2
  · norm_num [initLimiter]
  · norm_num [initLimiter]
  · norm_num [initLimiter]

/-- C6 counterexample: the claim fails as stated.  At the 0.5-per-second
floor a default throttle call leaves the rate unchanged rather than strictly
decreasing it, and at the base rate a default recover call leaves the rate
unchanged rather than strictly increasing it. -/
theorem limiter_strict_monotone_cex :
    (throttle (initLimiter (1/2) 10) (1/2)).rate = (initLimiter (1/2) 10).rate ∧
    ¬((throttle (initLimiter (1/2) 10) (1/2)).rate < (initLimiter (1/2) 10).rate) ∧
    (recover (initLimiter 5 10) (6/5)).rate = (initLimiter 5 10).rate ∧
    ¬((initLimiter 5 10).rate < (recover (initLimiter 5 10) (6/5)).rate) := by
  refine ⟨?_, ?_, ?_, ?_⟩ <;> simp [throttle, recover, initLimiter] <;> norm_num

/-! Retry loop of `AsyncHttpClient.get`: the sequence of outcomes the request
would observe (one per issued HTTP attempt) is passed in as a script. -/

/-- Outcome is the result of one issued HTTP attempt: a response passing
`raise_for_status` (carrying the JSON success flag used by
`get_game_details`), a 429 rate-limit status error, or any other
`HTTPStatusError`/`RequestError` (transient). -/
inductive Outcome where
  | ok (apiSuccess : Bool)
  | rateLimited
  | transient
deriving DecidableEq, Repr

/-- attemptLoop embeds the body of `AsyncHttpClient.get`: the `for attempt in
range(max_retries + 1)` loop, entered with `fuel = max_retries + 1`
iterations.  On success it calls `recover` (default factor 1.2) and returns
the response; on a 429 it calls `throttle` (default factor 0.5), sleeps, and
continues — which moves to the NEXT value of `attempt`; on a transient error
it backs off and moves on; when the loop ends the last exception is raised
(modeled as `none`). -/
def attemptLoop (script : Nat → Outcome) :
    Nat → Nat → TokenBucketRateLimiter →
      Option (Nat × Bool) × TokenBucketRateLimiter
  | _, 0, lim => (none, lim)
  | i, fuel + 1, lim =>
    match script i with
    | .ok b => (some (i, b), recover lim (6/5))
    | .rateLimited => attemptLoop script (i + 1) fuel (throttle lim (1/2))
    | .transient => attemptLoop script (i + 1) fuel lim

/-- asyncGet embeds `AsyncHttpClient.get` for a given `max_retries`: run the
attempt loop from attempt 0 with `max_retries + 1` iterations, returning the
successful attempt index and its JSON success flag, or `none` when the loop
raises the last exception. -/
def asyncGet (script : Nat → Outcome) (maxRetries : Nat)
    (lim : TokenBucketRateLimiter) : Option (Nat × Bool) × TokenBucketRateLimiter :=
  attemptLoop script 0 (maxRetries + 1) lim

/-- specLoop follows the specification wording instead of the source: a 429
response triggers throttle and a wait and is retried WITHOUT consuming a
standard retry attempt (`attempts` stays put on a 429 and decreases only on a
transient failure); `fuel` merely bounds the number of processed responses so
the function terminates on scripts with unboundedly many 429s. -/
def specLoop (script : Nat → Outcome) :
    Nat → Nat → Nat → TokenBucketRateLimiter →
      Option (Nat × Bool) × TokenBucketRateLimiter
  | _, _, 0, lim => (none, lim)
  | pos, attempts, fuel + 1, lim =>
    match script pos with
    | .ok b => (some (pos, b), recover lim (6/5))
    | .rateLimited => specLoop script (pos + 1) attempts fuel (throttle lim (1/2))
    | .transient =>
      match attempts with
      | 0 => (none, lim)
      | 1 => (none, lim)
      | a + 2 => specLoop script (pos + 1) (a + 1) fuel lim

/-- specGet is the specification-conformant client with `max_retries + 1`
standard attempts available, for comparison against `asyncGet`. -/
def specGet (script : Nat → Outcome) (maxRetries fuel : Nat)
    (lim : TokenBucketRateLimiter) : Option (Nat × Bool) × TokenBucketRateLimiter :=
  specLoop script 0 (maxRetries + 1) fuel lim

/-- countStandard counts the non-429 outcomes among the first `n` issued
attempts: the standard attempts the client actually performed when it
consumed `n` loop iterations. -/
def countStandard (script : Nat → Outcome) (n : Nat) : Nat :=
  (List.range n).countP (fun i => decide (script i ≠ Outcome.rateLimited))

/-- cexScript is a request that is rate-limited on its first attempt and
would succeed on its second. -/
def cexScript : Nat → Outcome :=
  fun k => if k = 0 then Outcome.rateLimited else Outcome.ok true

lemma attemptLoop_shift (script : Nat → Outcome) (fuel : Nat) :
    ∀ (i : Nat) (lim : TokenBucketRateLimiter),
      attemptLoop script (i + 1) fuel lim =
        ((attemptLoop (fun k => script (k + 1)) i fuel lim).1.map
          (fun p => (p.1 + 1, p.2)),
         (attemptLoop (fun k => script (k + 1)) i fuel lim).2) := by
  induction fuel with
  | zero => intro i lim; rfl
  | succ f ih =>
    intro i lim
    simp only [attemptLoop]
    cases hsc : script (i + 1) with
    | ok b => rfl
    | rateLimited => exact ih (i + 1) (throttle lim (1/2))
    | transient => exact ih (i + 1) lim

lemma attemptLoop_none_of_no_ok (script : Nat → Outcome) (fuel : Nat) :
    ∀ (i : Nat) (lim : TokenBucketRateLimiter),
      (∀ j, j < fuel → ∀ b, script (i + j) ≠ Outcome.ok b) →
      (attemptLoop script i fuel lim).1 = none := by
  induction fuel with
  | zero => intro i lim _; rfl
  | succ f ih =>
    intro i lim h
    cases hsc : script i with
    | ok c =>
      exact absurd (by rw [Nat.add_zero]; exact hsc) (h 0 (by omega) c)
    | rateLimited =>
      rw [show (attemptLoop script i (f + 1) lim) =
        attemptLoop script (i + 1) f (throttle lim (1/2)) from by
          simp only [attemptLoop, hsc]]
      apply ih
      intro j hj b
      rw [show i + 1 + j = i + (j + 1) from by omega]
      exact h (j + 1) (by omega) b
    | transient =>
      rw [show (attemptLoop script i (f + 1) lim) =
        attemptLoop script (i + 1) f lim from by
          simp only [attemptLoop, hsc]]
      apply ih
      intro j hj b
      rw [show i + 1 + j = i + (j + 1) from by omega]
      exact h (j + 1) (by omega) b

lemma attemptLoop_none_no_ok (script : Nat → Outcome) (fuel : Nat) :
    ∀ (i : Nat) (lim : TokenBucketRateLimiter),
      (attemptLoop script i fuel lim).1 = none →
      ∀ j, j < fuel → ∀ b, script (i + j) ≠ Outcome.ok b := by
  induction fuel with
  | zero => intro i lim _ j hj; omega
  | succ f ih =>
    intro i lim h j hj b
    cases hsc : script i with
    | ok c =>
      rw [show (attemptLoop script i (f + 1) lim) =
        (some (i, c), recover lim (6/5)) from by
          simp only [attemptLoop, hsc]] at h
      exact absurd h (by simp)
    | rateLimited =>
      rw [show (attemptLoop script i (f + 1) lim) =
        attemptLoop script (i + 1) f (throttle lim (1/2)) from by
          simp only [attemptLoop, hsc]] at h
      cases j with
      | zero => rw [Nat.add_zero, hsc]; simp
      | succ j' =>
        have := ih (i + 1) (throttle lim (1/2)) h j' (by omega) b
        rw [show i + (j' + 1) = i + 1 + j' from by omega]
        exact this
    | transient =>
      rw [show (attemptLoop script i (f + 1) lim) =
        attemptLoop script (i + 1) f lim from by
          simp only [attemptLoop, hsc]] at h
      cases j with
      | zero => rw [Nat.add_zero, hsc]; simp
      | succ j' =>
        have := ih (i + 1) lim h j' (by omega) b
        rw [show i + (j' + 1) = i + 1 + j' from by omega]
        exact this

/-- C3 (amended): a 429 response triggers RateLimiter.throttle and a
server-advised wait and the request is then retried, but the retry consumes
one of the `max_retries + 1` loop attempts exactly as a transient failure
does: with a 429 on the first attempt, a call budgeted `m + 1` retries
returns the same response (success flag, or a raise) and the same final
limiter as a fresh call on the remaining script budgeted `m` retries against
the throttled limiter (and with 0 retries it raises immediately after
throttling); and a request raises exactly when none of its first
`max_retries + 1` outcomes is a success — in particular whenever no success
occurs among them, it raises. -/
theorem rate_limit_retry_amended (script : Nat → Outcome)
    (lim : TokenBucketRateLimiter) (m : Nat)
    (h : script 0 = Outcome.rateLimited) :
    asyncGet script 0 lim = (none, throttle lim (1/2)) ∧
    (asyncGet script (m + 1) lim).1.map Prod.snd =
      (asyncGet (fun k => script (k + 1)) m (throttle lim (1/2))).1.map Prod.snd ∧
    (asyncGet script (m + 1) lim).2 =
      (asyncGet (fun k => script (k + 1)) m (throttle lim (1/2))).2 ∧
    (∀ mr, (asyncGet script mr lim).1 = none ↔
      ∀ j, j ≤ mr → ∀ b, script j ≠ Outcome.ok b) := by
  have hstep : asyncGet script (m + 1) lim =
      attemptLoop script 1 (m + 1) (throttle lim (1/2)) := by
    show (match script 0 with
      | .ok b => (some (0, b), recover lim (6/5))
      | .rateLimited => attemptLoop script 1 (m + 1) (throttle lim (1/2))
      | .transient => attemptLoop script 1 (m + 1) lim) = _
    rw [h]
  have hshift : attemptLoop script 1 (m + 1) (throttle lim (1/2)) =
      ((attemptLoop (fun k => script (k + 1)) 0 (m + 1) (throttle lim (1/2))).1.map
        (fun p => (p.1 + 1, p.2)),
       (attemptLoop (fun k => script (k + 1)) 0 (m + 1) (throttle lim (1/2))).2) :=
    attemptLoop_shift script (m + 1) 0 (throttle lim (1/2))
  refine ⟨?_, ?_, ?_, ?_⟩
  · show (match script 0 with
      | .ok b => (some (0, b), recover lim (6/5))
      | .rateLimited => attemptLoop script 1 0 (throttle lim (1/2))
      | .transient => attemptLoop script 1 0 lim) = _
    rw [h]
    rfl
  · rw [hstep, hshift]
    show ((attemptLoop (fun k => script (k + 1)) 0 (m + 1) (throttle lim (1/2))).1.map
        (fun p => (p.1 + 1, p.2))).map Prod.snd = _
    rw [Option.map_map]
    rfl
  · rw [hstep, hshift]
    rfl
  · intro mr
    constructor
    · intro hnone j hj b
      have := attemptLoop_none_no_ok script (mr + 1) 0 lim hnone j (by omega) b
      rwa [Nat.zero_add] at this
    · intro hno
      apply attemptLoop_none_of_no_ok
      intro j hj b
      rw [Nat.zero_add]
      exact hno j (by omega) b

/-- Witness for C3 (amended): on a request whose first response is a 429, a
call with max_retries 1 returns the same response as a call with max_retries
0 on the shifted script against the throttled limiter. -/
theorem rate_limit_retry_amended_witness :
    (asyncGet cexScript 1 (initLimiter 5 10)).1.map Prod.snd =
      (asyncGet (fun k => cexScript (k + 1)) 0
        (throttle (initLimiter 5 10) (1/2))).1.map Prod.snd :=
  (rate_limit_retry_amended cexScript (initLimiter 5 10) 0 rfl).2.1

/-- C3 counterexample: the claim fails as stated.  With max_retries 0, a
request that is rate-limited on its first attempt and would succeed on its
second raises in the source client — the 429 consumed the only loop attempt,
so zero standard attempts were performed instead of the full quota — while
the specification-conformant client that does not count 429s reaches the
success. -/
theorem rate_limit_consumes_attempt_cex :
    (asyncGet cexScript 0 (initLimiter 5 10)).1 = none ∧
    countStandard cexScript 1 = 0 ∧
    (specGet cexScript 0 10 (initLimiter 5 10)).1 = some (1, true) := by
  exact ⟨rfl, rfl, rfl⟩

/-! Failure ledger (`FailureManager` in `failure_manager.py`). -/

/-- FailureEntry embeds one record of the failure-ledger JSON array:
`{type, id, reason, timestamp, context}`. -/
structure FailureEntry where
  type : String
  id : Int
  reason : String
  timestamp : Int
  context : List (String × String)
deriving DecidableEq, Repr

/-- ctxTruthy embeds the Python truthiness test `if context:` — false for
`None` and for an empty dict. -/
def ctxTruthy : Option (List (String × String)) → Bool
  | none => false
  | some [] => false
  | some (_ :: _) => true

/-- mkEntry is the new record appended by `log_failure` for a fresh key; its
context is the passed one, or an empty dict for a falsy context (the `or`
fallback in the source). -/
def mkEntry (ty : String) (idv : Int) (r : String)
    (ctx : Option (List (String × String))) (now : Int) : FailureEntry :=
  { type := ty
    id := idv
    reason := r
    timestamp := now
    context := ctx.getD [] }

/-- updateEntry is the in-place update `log_failure` applies to an existing
record: new reason and timestamp, and the new context only when a truthy one
was passed (`if context:` in the source). -/
def updateEntry (e : FailureEntry) (r : String)
    (ctx : Option (List (String × String))) (now : Int) : FailureEntry :=
  { e with
    reason := r
    timestamp := now
    context := if ctxTruthy ctx then ctx.getD [] else e.context }

/-- logFailure embeds `FailureManager.log_failure`: scan the loaded records
for the first entry with the same (type, id); when found, update it in place
and stop; otherwise append one new entry at the end.  The file reload and
rewrite around the scan are identity on the record list. -/
def logFailure (ty : String) (idv : Int) (r : String)
    (ctx : Option (List (String × String))) (now : Int) :
    List FailureEntry → List FailureEntry
  | [] => [mkEntry ty idv r ctx now]
  | e :: rest =>
    if e.type = ty ∧ e.id = idv then updateEntry e r ctx now :: rest
    else e :: logFailure ty idv r ctx now rest

/-- keyMatch tests whether an entry carries the given (type, id) key. -/
def keyMatch (ty : String) (idv : Int) (e : FailureEntry) : Bool :=
  decide (e.type = ty ∧ e.id = idv)

/-- countKey counts the ledger entries carrying the given (type, id) key. -/
def countKey (l : List FailureEntry) (ty : String) (idv : Int) : Nat :=
  l.countP (keyMatch ty idv)

/-- findKey returns the first ledger entry carrying the given (type, id)
key, as the scan in `log_failure` would find it. -/
def findKey (l : List FailureEntry) (ty : String) (idv : Int) : Option FailureEntry :=
  l.find? (keyMatch ty idv)

/-- LogCall is the argument tuple of one `log_failure` call. -/
structure LogCall where
  type : String
  id : Int
  reason : String
  context : Option (List (String × String))
  now : Int

/-- applyCalls folds a sequence of `log_failure` calls over a ledger. -/
def applyCalls (calls : List LogCall) (l : List FailureEntry) : List FailureEntry :=
  calls.foldl (fun acc c => logFailure c.type c.id c.reason c.context c.now acc) l

lemma keyMatch_updateEntry (ty : String) (idv : Int) (e : FailureEntry)
    (r : String) (ctx : Option (List (String × String))) (now : Int) :
    keyMatch ty idv (updateEntry e r ctx now) = keyMatch ty idv e := rfl

lemma keyMatch_mkEntry_self (ty : String) (idv : Int) (r : String)
    (ctx : Option (List (String × String))) (now : Int) :
    keyMatch ty idv (mkEntry ty idv r ctx now) = true := by
  simp [keyMatch, mkEntry]

lemma keyMatch_false_of_not_key (ty : String) (idv : Int) (e : FailureEntry)
    (h : ¬(e.type = ty ∧ e.id = idv)) : keyMatch ty idv e = false := by
  cases hx : keyMatch ty idv e
  · rfl
  · rw [keyMatch, decide_eq_true_eq] at hx
    exact absurd hx h

lemma logFailure_of_countKey_zero (ty : String) (idv : Int) (r : String)
    (ctx : Option (List (String × String))) (now : Int) (l : List FailureEntry)
    (h : countKey l ty idv = 0) :
    logFailure ty idv r ctx now l = l ++ [mkEntry ty idv r ctx now] := by
  induction l with
  | nil => rfl
  | cons e rest ih =>
    rw [countKey, List.countP_cons] at h
    have hne : ¬(e.type = ty ∧ e.id = idv) := by
      intro hc
      have hkt : keyMatch ty idv e = true := by
        rw [keyMatch, decide_eq_true_eq]; exact hc
      rw [hkt] at h
      simp at h
    have hkm := keyMatch_false_of_not_key ty idv e hne
    rw [hkm] at h
    simp only [logFailure, if_neg hne, List.cons_append]
    rw [ih (by simpa [countKey] using h)]

lemma countKey_logFailure_of_zero (ty : String) (idv : Int) (r : String)
    (ctx : Option (List (String × String))) (now : Int) (l : List FailureEntry)
    (h : countKey l ty idv = 0) :
    countKey (logFailure ty idv r ctx now l) ty idv = 1 := by
  rw [logFailure_of_countKey_zero ty idv r ctx now l h, countKey,
    List.countP_append]
  rw [countKey] at h
  rw [h, List.countP_cons, List.countP_nil, keyMatch_mkEntry_self]
  rfl

lemma countKey_logFailure_of_found (ty : String) (idv : Int) (r : String)
    (ctx : Option (List (String × String))) (now : Int) (l : List FailureEntry)
    (h : 1 ≤ countKey l ty idv) :
    countKey (logFailure ty idv r ctx now l) ty idv = countKey l ty idv := by
  induction l with
  | nil => simp [countKey] at h
  | cons e rest ih =>
    by_cases hk : e.type = ty ∧ e.id = idv
    · simp only [logFailure, if_pos hk, countKey, List.countP_cons,
        keyMatch_updateEntry]
    · have h1 := keyMatch_false_of_not_key ty idv e hk
      rw [countKey, List.countP_cons, h1] at h
      simp only [logFailure, if_neg hk, countKey, List.countP_cons, h1]
      have := ih (by simpa [countKey] using h)
      rw [countKey, countKey] at this
      rw [this]

lemma countKey_logFailure_ne (ty : String) (idv : Int) (r : String)
    (ctx : Option (List (String × String))) (now : Int) (l : List FailureEntry)
    (ty2 : String) (id2 : Int) (h : ¬(ty = ty2 ∧ idv = id2)) :
    countKey (logFailure ty idv r ctx now l) ty2 id2 = countKey l ty2 id2 := by
  induction l with
  | nil =>
    have hmk : keyMatch ty2 id2 (mkEntry ty idv r ctx now) = false := by
      apply keyMatch_false_of_not_key
      simpa [mkEntry] using h
    show countKey [mkEntry ty idv r ctx now] ty2 id2 = 0
    rw [countKey, List.countP_cons, List.countP_nil, hmk]
    rfl
  | cons e rest ih =>
    by_cases hk : e.type = ty ∧ e.id = idv
    · simp only [logFailure, if_pos hk, countKey, List.countP_cons,
        keyMatch_updateEntry]
    · simp only [logFailure, if_neg hk, countKey, List.countP_cons]
      rw [countKey, countKey] at ih
      rw [ih]

lemma countKey_applyCalls_le_one (calls : List LogCall) (l : List FailureEntry)
    (h : ∀ ty idv, countKey l ty idv ≤ 1) :
    ∀ ty idv, countKey (applyCalls calls l) ty idv ≤ 1 := by
  induction calls generalizing l with
  | nil => exact h
  | cons c rest ih =>
    apply ih
    intro ty idv
    by_cases hk : c.type = ty ∧ c.id = idv
    · rcases hk with ⟨h1, h2⟩
      subst h1; subst h2
      rcases Nat.eq_zero_or_pos (countKey l c.type c.id) with hz | hp
      · rw [countKey_logFailure_of_zero _ _ _ _ _ _ hz]
      · rw [countKey_logFailure_of_found _ _ _ _ _ _ hp]
        exact h c.type c.id
    · rw [countKey_logFailure_ne _ _ _ _ _ _ _ _ hk]
      exact h ty idv

lemma logFailure_length_of_found (ty : String) (idv : Int) (r : String)
    (ctx : Option (List (String × String))) (now : Int) (l : List FailureEntry)
    (h : 1 ≤ countKey l ty idv) :
    (logFailure ty idv r ctx now l).length = l.length := by
  induction l with
  | nil => simp [countKey] at h
  | cons e rest ih =>
    by_cases hk : e.type = ty ∧ e.id = idv
    · simp only [logFailure, if_pos hk, List.length_cons]
    · have h1 := keyMatch_false_of_not_key ty idv e hk
      rw [countKey, List.countP_cons, h1] at h
      simp only [logFailure, if_neg hk, List.length_cons]
      rw [ih (by simpa [countKey] using h)]

lemma findKey_logFailure_of_found (ty : String) (idv : Int) (r : String)
    (ctx : Option (List (String × String))) (now : Int) (l : List FailureEntry)
    (h : 1 ≤ countKey l ty idv) :
    ∃ e, findKey l ty idv = some e ∧
      findKey (logFailure ty idv r ctx now l) ty idv =
        some (updateEntry e r ctx now) := by
  induction l with
  | nil => simp [countKey] at h
  | cons e rest ih =>
    by_cases hk : e.type = ty ∧ e.id = idv
    · have h1 : keyMatch ty idv e = true := by
        rw [keyMatch, decide_eq_true_eq]; exact hk
      have h2 : keyMatch ty idv (updateEntry e r ctx now) = true := by
        rw [keyMatch_updateEntry]; exact h1
      refine ⟨e, ?_, ?_⟩
      · rw [findKey, List.find?_cons_of_pos _ h1]
      · simp only [logFailure, if_pos hk]
        rw [findKey, List.find?_cons_of_pos _ h2]
    · have h1 := keyMatch_false_of_not_key ty idv e hk
      rw [countKey, List.countP_cons, h1] at h
      rcases ih (by simpa [countKey] using h) with ⟨e0, he1, he2⟩
      refine ⟨e0, ?_, ?_⟩
      · rw [findKey, List.find?_cons_of_neg _ (by rw [h1]; simp), ← findKey, he1]
      · simp only [logFailure, if_neg hk]
        rw [findKey, List.find?_cons_of_neg _ (by rw [h1]; simp), ← findKey, he2]

/-- C8: every ledger produced by a sequence of log_failure calls from the
empty ledger holds at most one entry per (type, id) key; a log_failure for a
fresh key appends exactly one new entry at the end; and a log_failure for an
existing key keeps the length, updating the first matched entry in place with
the new reason and timestamp, along with the new context when a truthy one is
passed (the prior context is kept otherwise). -/
theorem failure_ledger_upsert :
    (∀ (calls : List LogCall) (ty : String) (idv : Int),
      countKey (applyCalls calls []) ty idv ≤ 1) ∧
    (∀ (l : List FailureEntry) (ty : String) (idv : Int) (r : String)
      (ctx : Option (List (String × String))) (now : Int),
      countKey l ty idv = 0 →
      logFailure ty idv r ctx now l = l ++ [mkEntry ty idv r ctx now]) ∧
    (∀ (l : List FailureEntry) (ty : String) (idv : Int) (r : String)
      (ctx : Option (List (String × String))) (now : Int),
      1 ≤ countKey l ty idv →
      (logFailure ty idv r ctx now l).length = l.length ∧
      ∃ e, findKey l ty idv = some e ∧
        findKey (logFailure ty idv r ctx now l) ty idv =
          some (updateEntry e r ctx now)) := by
  refine ⟨?_, ?_, ?_⟩
  · intro calls ty idv
    exact countKey_applyCalls_le_one calls []
      (fun _ _ => by simp [countKey]) ty idv
  · intro l ty idv r ctx now h
    exact logFailure_of_countKey_zero ty idv r ctx now l h
  · intro l ty idv r ctx now h
    exact ⟨logFailure_length_of_found ty idv r ctx now l h,
      findKey_logFailure_of_found ty idv r ctx now l h⟩

/-- Witness for C8: logging a failure for a fresh key on the empty ledger
appends exactly that one entry. -/
theorem failure_ledger_upsert_witness :
    logFailure "game" 1 "timeout" none 0 [] =
      [] ++ [mkEntry "game" 1 "timeout" none 0] :=
  failure_ledger_upsert.2.1 [] "game" 1 "timeout" none 0 rfl

/-! Detail fetch of `GameScraper.get_game_details`. -/

/-- GameInfo stands for the parsed detail payload
(`GameInfo.from_api_response`); only the id matters for the claims. -/
structure GameInfo where
  appId : Int
deriving DecidableEq, Repr

/-- getGameDetails embeds `GameScraper.get_game_details`: fetch the detail
JSON through the retrying client; on a response whose success flag is true
return the parsed info; on success=false record a failure and return none;
when the client raises (retries exhausted) record a failure with the error
text and return none. -/
def getGameDetails (script : Nat → Outcome) (maxRetries : Nat)
    (lim : TokenBucketRateLimiter) (appId : Int) (now : Int)
    (ledger : List FailureEntry) : Option GameInfo × List FailureEntry :=
  match (asyncGet script maxRetries lim).1 with
  | some (_, true) => (some { appId := appId }, ledger)
  | some (_, false) =>
    (none, logFailure "game" appId "API returned success=false" none now ledger)
  | none => (none, logFailure "game" appId "request failed" none now ledger)

/-- C5: with max_retries = 3, a fetch failing transiently on its first two
attempts and succeeding on the third returns the parsed detail and leaves
the failure ledger untouched; a fetch failing transiently on every attempt
returns none (the raised error) and, starting from a ledger with no record
for the id, leaves exactly one failure-ledger record for (game, id). -/
theorem retry_failure_ledger (lim : TokenBucketRateLimiter) (appId : Int)
    (now : Int) (ledger : List FailureEntry)
    (h : countKey ledger "game" appId = 0) :
    (∀ script : Nat → Outcome,
      script 0 = Outcome.transient → script 1 = Outcome.transient →
      script 2 = Outcome.ok true →
      getGameDetails script 3 lim appId now ledger =
        (some { appId := appId }, ledger)) ∧
    (getGameDetails (fun _ => Outcome.transient) 3 lim appId now ledger).1 =
      none ∧
    countKey
      (getGameDetails (fun _ => Outcome.transient) 3 lim appId now ledger).2
      "game" appId = 1 := by
  have hall : (asyncGet (fun _ => Outcome.transient) 3 lim).1 = none := rfl
  refine ⟨?_, ?_, ?_⟩
  · intro script h0 h1 h2
    have hget : (asyncGet script 3 lim).1 = some (2, true) := by
      show (attemptLoop script 0 4 lim).1 = _
      rw [show attemptLoop script 0 4 lim = attemptLoop script 1 3 lim from by
        simp only [attemptLoop, h0]]
      rw [show attemptLoop script 1 3 lim = attemptLoop script 2 2 lim from by
        simp only [attemptLoop, h1]]
      rw [show attemptLoop script 2 2 lim =
        (some (2, true), recover lim (6/5)) from by
        simp only [attemptLoop, h2]]
    rw [getGameDetails, hget]
  · rw [getGameDetails, hall]
  · rw [getGameDetails, hall]
    show countKey (logFailure "game" appId "request failed" none now ledger)
      "game" appId = 1
    exact countKey_logFailure_of_zero "game" appId "request failed" none now ledger h

/-- Witness for C5: from the empty ledger, a fetch for id 7 failing on all
attempts yields no detail and exactly one ledger record for (game, 7). -/
theorem retry_failure_ledger_witness :
    (getGameDetails (fun _ => Outcome.transient) 3 (initLimiter 5 10) 7 0 []).1 =
      none ∧
    countKey
      (getGameDetails (fun _ => Outcome.transient) 3 (initLimiter 5 10) 7 0 []).2
      "game" 7 = 1 :=
  ⟨(retry_failure_ledger (initLimiter 5 10) 7 0 [] rfl).2.1,
   (retry_failure_ledger (initLimiter 5 10) 7 0 [] rfl).2.2⟩

/-! Input deduplication (`ReviewScraper.scrape_from_list` preprocessing; the
producer of `GameScraper.run` applies the same seen-set logic per page). -/

/-- dedupGo embeds the preprocessing loop of `scrape_from_list`: an id seen
earlier in this run goes to the reported skipped list; an id already
checkpoint-complete is skipped silently (after entering the seen set); all
other ids go to the unique list, in order.  Returns (unique, skipped). -/
def dedupGo (completedRev : Finset Int) : List Int → Finset Int → List Int × List Int
  | [], _ => ([], [])
  | i :: rest, seen =>
    if i ∈ seen then
      let r := dedupGo completedRev rest seen
      (r.1, i :: r.2)
    else if i ∈ completedRev then
      dedupGo completedRev rest (insert i seen)
    else
      let r := dedupGo completedRev rest (insert i seen)
      (i :: r.1, r.2)

/-- preprocessIds runs the dedup loop from an empty seen set; its first
component is `unique_app_ids` (one fetch task is scheduled per element) and
its second is `skipped_appids` (the reported in-run duplicates). -/
def preprocessIds (completedRev : Finset Int) (appIds : List Int) : List Int × List Int :=
  dedupGo completedRev appIds ∅

/-- C7: on input [101, 102, 102, 103] with an empty checkpoint the pipeline
schedules id 102 exactly once and reports exactly one duplicate; with id 103
already checkpoint-complete, 103 is dropped silently while the duplicate
report still holds exactly the one in-run duplicate. -/
theorem dedup_inputs :
    preprocessIds ∅ [101, 102, 102, 103] = ([101, 102, 103], [102]) ∧
    List.count 102 (preprocessIds ∅ [101, 102, 102, 103]).1 = 1 ∧
    (preprocessIds ∅ [101, 102, 102, 103]).2.length = 1 ∧
    preprocessIds {103} [101, 102, 102, 103] = ([101, 102], [102]) := by
  refine ⟨by decide, by decide, by decide, by decide⟩

/-! Committer role of `GameScraper.run`. -/

/-- knownKeys lists the five set-valued keys of
`Checkpoint._get_default_state`. -/
def knownKeys : List String :=
  ["completed_pages", "completed_appids", "failed_appids",
   "completed_review_appids", "failed_review_appids"]

/-- CheckpointFile models the three relevant conditions of the checkpoint
file: absent, present but not valid JSON, or a valid JSON object given as a
key-value list. -/
inductive CheckpointFile where
  | missing
  | invalid
  | valid (entries : List (String × JsonVal))

/-- lookupKey reads a key from the JSON object. -/
def lookupKey (entries : List (String × JsonVal)) (k : String) : Option JsonVal :=
  (entries.find? (fun e => e.1 == k)).map Prod.snd

/-- isListVal tests whether a JSON value is a list, the only shape `set(v)`
accepts among the modeled values. -/
def isListVal : JsonVal → Bool
  | .jlist _ => true
  | _ => false

/-- convertKnown embeds the per-known-key conversion of `Checkpoint._load`:
a missing key is filled with the default empty set; a list value is converted
by `set(...)`; any other value makes `set(...)` raise a TypeError that the
`except (json.JSONDecodeError, IOError)` clause does not catch. -/
def convertKnown (entries : List (String × JsonVal)) (k : String) :
    Except Unit (Finset Int) :=
  match lookupKey entries k with
  | none => Except.ok ∅
  | some (JsonVal.jlist xs) => Except.ok xs.toFinset
  | some _ => Except.error ()

/-- listAt is the set a known key contributes when the conversion succeeds. -/
def listAt (entries : List (String × JsonVal)) (k : String) : Finset Int :=
  match lookupKey entries k with
  | some (JsonVal.jlist xs) => xs.toFinset
  | _ => ∅

/-- loadCheckpoint embeds `Checkpoint._load`: the default state for a missing
or unparsable file; otherwise convert the five known keys and carry the
unrecognized keys through unchanged, propagating the TypeError of a known key
bound to a non-iterable value. -/
def loadCheckpoint : CheckpointFile → Except Unit CheckpointState
  | .missing => Except.ok defaultState
  | .invalid => Except.ok defaultState
  | .valid entries => do
    let cp ← convertKnown entries "completed_pages"
    let ca ← convertKnown entries "completed_appids"
    let fa ← convertKnown entries "failed_appids"
    let cr ← convertKnown entries "completed_review_appids"
    let fr ← convertKnown entries "failed_review_appids"
    Except.ok
      { completed_pages := cp
        completed_appids := ca
        failed_appids := fa
        completed_review_appids := cr
        failed_review_appids := fr
        extras := entries.filter (fun e => decide (e.1 ∉ knownKeys)) }

/-- loadOk reports whether constructing a Checkpoint from this file state
completes without raising. -/
def loadOk (f : CheckpointFile) : Bool :=
  match loadCheckpoint f with
  | .ok _ => true
  | .error _ => false

/-- badFile is a valid JSON object binding the known key completed_pages to
the number 5, on which `set(5)` raises TypeError. -/
def badFile : CheckpointFile :=
  CheckpointFile.valid [("completed_pages", JsonVal.jnum 5)]

lemma convertKnown_ok (entries : List (String × JsonVal)) (k : String)
    (h : ∀ e ∈ entries, e.1 ∈ knownKeys → isListVal e.2 = true)
    (hk : k ∈ knownKeys) :
    convertKnown entries k = Except.ok (listAt entries k) := by
  unfold convertKnown listAt lookupKey
  cases hf : entries.find? (fun e => e.1 == k) with
  | none => rfl
  | some e =>
    have hmem : e ∈ entries := List.mem_of_find?_eq_some hf
    have hpred := List.find?_some hf
    have hek : e.1 = k := by
      exact eq_of_beq (by simpa using hpred)
    have hlist : isListVal e.2 = true := h e hmem (hek ▸ hk)
    cases hv : e.2 with
    | jlist xs =>
      rw [show Option.map Prod.snd (some e) = some e.2 from rfl, hv]
    | jnum n => rw [hv] at hlist; simp [isListVal] at hlist
    | jnull => rw [hv] at hlist; simp [isListVal] at hlist

/-- C10 (amended): a missing or invalid-JSON checkpoint file loads as the
empty default state; a valid JSON object whose known set-valued keys all hold
lists loads with those lists converted to sets, missing known keys filled
with empty sets, and unrecognized keys preserved unchanged; but when a known
key holds a non-iterable value the uncaught TypeError from `set(...)`
propagates, so construction is not raise-free over all file contents. -/
theorem checkpoint_load_resilience :
    loadCheckpoint CheckpointFile.missing = Except.ok defaultState ∧
    loadCheckpoint CheckpointFile.invalid = Except.ok defaultState ∧
    (∀ entries, (∀ e ∈ entries, e.1 ∈ knownKeys → isListVal e.2 = true) →
      loadCheckpoint (CheckpointFile.valid entries) =
        Except.ok
          { completed_pages := listAt entries "completed_pages"
            completed_appids := listAt entries "completed_appids"
            failed_appids := listAt entries "failed_appids"
            completed_review_appids := listAt entries "completed_review_appids"
            failed_review_appids := listAt entries "failed_review_appids"
            extras := entries.filter (fun e => decide (e.1 ∉ knownKeys)) }) := by
  refine ⟨rfl, rfl, ?_⟩
  intro entries h
  have h1 := convertKnown_ok entries "completed_pages" h (by simp [knownKeys])
  have h2 := convertKnown_ok entries "completed_appids" h (by simp [knownKeys])
  have h3 := convertKnown_ok entries "failed_appids" h (by simp [knownKeys])
  have h4 := convertKnown_ok entries "completed_review_appids" h (by simp [knownKeys])
  have h5 := convertKnown_ok entries "failed_review_appids" h (by simp [knownKeys])
  simp only [loadCheckpoint, h1, h2, h3, h4, h5]
  rfl

/-- Witness for C10 (amended): a file holding one known key with a list and
one unrecognized key loads with the list converted to a set, the other known
keys empty, and the unrecognized key preserved. -/
theorem checkpoint_load_resilience_witness :
    loadCheckpoint
      (CheckpointFile.valid
        [("completed_appids", JsonVal.jlist [3]), ("note", JsonVal.jnum 7)]) =
      Except.ok
        { completed_pages :=
            listAt [("completed_appids", JsonVal.jlist [3]),
              ("note", JsonVal.jnum 7)] "completed_pages"
          completed_appids :=
            listAt [("completed_appids", JsonVal.jlist [3]),
              ("note", JsonVal.jnum 7)] "completed_appids"
          failed_appids :=
            listAt [("completed_appids", JsonVal.jlist [3]),
              ("note", JsonVal.jnum 7)] "failed_appids"
          completed_review_appids :=
            listAt [("completed_appids", JsonVal.jlist [3]),
              ("note", JsonVal.jnum 7)] "completed_review_appids"
          failed_review_appids :=
            listAt [("completed_appids", JsonVal.jlist [3]),
              ("note", JsonVal.jnum 7)] "failed_review_appids"
          extras :=
            [("completed_appids", JsonVal.jlist [3]),
              ("note", JsonVal.jnum 7)].filter
              (fun e => decide (e.1 ∉ knownKeys)) } :=
  checkpoint_load_resilience.2.2
    [("completed_appids", JsonVal.jlist [3]), ("note", JsonVal.jnum 7)]
    (by decide)

/-- C10 counterexample: the claim fails as stated.  Constructing a Checkpoint
from a valid JSON object binding the known key completed_pages to the number
5 raises an uncaught TypeError, so construction is not raise-free for every
file content. -/
theorem checkpoint_load_cex : loadOk badFile = false := by
  decide

end SteamScraper
